import Mathlib

/-!
Verification of the Throughput sampler (`src/main.rs`).

The program repeatedly reads from a byte source into a bounded buffer,
accumulates transfer statistics in a `TransferInfo` accumulator, and emits a
formatted report when at least one second has elapsed since the previous
report or when end-of-stream (a zero-byte read) is reached.

Shallow embedding conventions:
* Rust `f64` values are modelled as `ℚ`.  The only floating-point operations
  the program performs on the modelled paths are additions, comparisons and
  divisions by powers of two (1024^k), all of which are exact in `f64`, so the
  rational model agrees with the floating-point program away from the
  divide-by-zero edge case, which no claim below depends on.
* The byte source is an environment `reads : Nat → ReadEvent`: the k-th call
  of `reader.read` returns `reads k`.  `ReadEvent.ok data wfail` is a
  successful read returning the bytes `data` (empty = end of stream); the
  ghost flag `wfail` says whether the passthrough `write_all` of those bytes
  would fail.  `ReadEvent.rerr` is a failed read (`Err` from `read`).
* Wall-clock time is an environment too: each outer-loop iteration is given a
  `Tick`, holding the measured `Duration` since the last report and a ghost
  flag `pfail` saying whether writing the report (`print_info`) would fail.
* `std::process::exit(1)` (`exit_err`) is modelled as the terminal
  `Status.halted`; a normal return from `measure_reader` is `Status.done`;
  running out of the (finite) tick supply while the loop would continue is
  `Status.fuel`.
* Output is a ghost trace of `Action`s: passthrough bytes written to stdout,
  error-channel lines, rendered reports (tagged with the channel they go to),
  and process exit.
-/

namespace Throughput

/-- The `TransferInfo` accumulator of the source (`f64` fields as `ℚ`). -/
structure TransferInfo where
  total_bytes_transferred : Nat
  total_measures : Nat
  total_bps : ℚ
  last_bps : ℚ
  last_bytes_transferred : Nat
deriving DecidableEq, Repr

/-- `TransferInfo::default()`: all fields zero. -/
def initInfo : TransferInfo := ⟨0, 0, 0, 0, 0⟩

/-- `std::time::Duration`: whole seconds and sub-second nanoseconds. -/
structure DurationM where
  secs : Nat
  nanos : Nat
deriving DecidableEq, Repr

/-- Result of one `reader.read(&mut buffer)` call, with a ghost flag on
successful reads saying whether the passthrough write of the data fails. -/
inductive ReadEvent where
  | ok (data : List Nat) (wfail : Bool)
  | rerr
deriving DecidableEq, Repr

/-- Output channel of a rendered report. -/
inductive Channel where
  | stdout
  | stderr
deriving DecidableEq, Repr

/-- Observable actions of the sampler. -/
inductive Action where
  | writeOut (data : List Nat)
  | errMsg (msg : String)
  | report (ch : Channel) (text : String)
  | exit
deriving DecidableEq, Repr

/-- Environment of one outer-loop iteration: the duration measured by
`measure_end.duration_since(last_measured)` and a ghost flag saying whether
the `print_info` write fails. -/
structure Tick where
  dur : DurationM
  pfail : Bool
deriving DecidableEq, Repr

/-- How a run of `measure_reader` ended. -/
inductive Status where
  | done
  | halted
  | fuel
deriving DecidableEq, Repr

/-- Result of the inner `for _ in 0..iterations` stage. -/
structure InnerResult where
  info : TransferInfo
  idx : Nat
  acts : List Action
  endLoop : Bool
  halted : Bool
deriving DecidableEq, Repr

/-- Result of a run of `measure_reader`: final status, accumulator, next read
index, action trace, and the ghost list of recorded per-interval rates. -/
structure RunResult where
  status : Status
  info : TransferInfo
  idx : Nat
  acts : List Action
  rates : List ℚ
deriving DecidableEq, Repr

def DEFAULT_BUFFER_SIZE : Nat := 4096
def DEFAULT_ITERATION_COUNT : Nat := 1
def DEFAULT_ADDRESS : String := "127.0.0.1"

/-- `byte_to_mem_units` from the source, over `ℚ`. -/
def byte_to_mem_units (bytes : ℚ) : ℚ × String :=
  let KB : ℚ := 1024
  let MB : ℚ := KB * 1024
  let GB : ℚ := MB * 1024
  let TB : ℚ := GB * 1024
  if bytes ≥ TB then (bytes / TB, "TB")
  else if bytes ≥ GB then (bytes / GB, "GB")
  else if bytes ≥ MB then (bytes / MB, "MB")
  else if bytes ≥ KB then (bytes / KB, "KB")
  else (bytes, "Bytes")

/-- `bytes_per_second` from the source: bytes divided by
`secs + nanos / 1e9`.  (`ℚ` division by zero yields 0 where `f64` yields
inf/NaN; no claim below touches that edge case.) -/
def bytes_per_second (bytes_read : Nat) (duration : DurationM) : ℚ :=
  (bytes_read : ℚ) / ((duration.secs : ℚ) + (duration.nanos : ℚ) / 1000000000)

/-- Fueled helper for `natDigits`; the fuel only needs to exceed the number
of digits, and `n + 1` always does. -/
def natDigitsAux : Nat → Nat → List Char
  | 0, _ => []
  | fuel + 1, n =>
    if n < 10 then [Char.ofNat (48 + n)]
    else natDigitsAux fuel (n / 10) ++ [Char.ofNat (48 + n % 10)]

/-- Decimal digits of a natural number, most significant first (the embedding
of Rust's `{}` formatting of an unsigned integer). -/
def natDigits (n : Nat) : List Char := natDigitsAux (n + 1) n

/-- Decimal rendering of a natural number. -/
def natRepr (n : Nat) : String := String.mk (natDigits n)

/-- Left-pad a digit list with zeros to width 3. -/
def pad3 (ds : List Char) : List Char := List.replicate (3 - ds.length) '0' ++ ds

/-- The embedding of Rust's `{:.3}` fixed-point formatting, for the
non-negative rationals the program prints: round to the nearest thousandth
and render with exactly three fractional digits. -/
def formatFixed3 (q : ℚ) : String :=
  let m : Nat := (Rat.floor (q * 1000 + 1 / 2)).toNat
  String.mk (natDigits (m / 1000)) ++ "." ++ String.mk (pad3 (natDigits (m % 1000)))

/-- `print_fixed_width`: write `text`, then pad with spaces when shorter than
`columns`. -/
def print_fixed_width (text : String) (columns : Nat) : String :=
  if text.length < columns then
    text ++ String.mk (List.replicate (columns - text.length) ' ')
  else text

/-- `term_clear_line`: `writeln!(output, "\x1b[K")`. -/
def term_clear_line : String := "\u001B[K\n"

/-- `term_move_up`: `write!(output, "\x1b[{}A", lines)`. -/
def term_move_up (lines : Nat) : String := "\u001B[" ++ natRepr lines ++ "A"

/-- The text rendered by one successful `print_info` call. -/
def print_info (info : TransferInfo) : String :=
  (if 1 < info.total_measures then term_move_up 3 else "")
  ++ (print_fixed_width "Data Transferred:" 24
      ++ (formatFixed3 (byte_to_mem_units (info.total_bytes_transferred : ℚ)).1
          ++ " " ++ (byte_to_mem_units (info.total_bytes_transferred : ℚ)).2
          ++ " (" ++ natRepr info.total_measures ++ " cycles)")
      ++ term_clear_line)
  ++ (print_fixed_width "Transfer Speed:" 24
      ++ (formatFixed3 (byte_to_mem_units info.last_bps).1
          ++ " " ++ (byte_to_mem_units info.last_bps).2 ++ "/sec")
      ++ term_clear_line)
  ++ (print_fixed_width "Average Transfer Speed:" 24
      ++ (formatFixed3 (byte_to_mem_units (info.total_bps / (info.total_measures : ℚ))).1
          ++ " " ++ (byte_to_mem_units (info.total_bps / (info.total_measures : ℚ))).2
          ++ "/sec")
      ++ term_clear_line)

/-- The two `+=` lines of a successful read:
`last_bytes_transferred += bytes_read; total_bytes_transferred += bytes_read`. -/
def addBytes (info : TransferInfo) (n : Nat) : TransferInfo :=
  { info with
    last_bytes_transferred := info.last_bytes_transferred + n,
    total_bytes_transferred := info.total_bytes_transferred + n }

/-- The inner `for _ in 0..iterations` stage of `measure_reader`.
Arguments: remaining iterations, next read index, current accumulator. -/
def measure_inner (pt : Bool) (reads : Nat → ReadEvent) :
    Nat → Nat → TransferInfo → InnerResult
  | 0, idx, info => ⟨info, idx, [], false, false⟩
  | i + 1, idx, info =>
    match reads idx with
    | .ok data wfail =>
      let info1 := addBytes info data.length
      if data.length = 0 then
        ⟨info1, idx + 1, [], true, false⟩
      else if pt then
        if wfail then
          ⟨info1, idx + 1,
            [.errMsg "Error while writing buffer into stdout", .exit], false, true⟩
        else
          let r := measure_inner pt reads i (idx + 1) info1
          ⟨r.info, r.idx, .writeOut data :: r.acts, r.endLoop, r.halted⟩
      else
        let r := measure_inner pt reads i (idx + 1) info1
        ⟨r.info, r.idx, r.acts, r.endLoop, r.halted⟩
    | .rerr =>
      let r := measure_inner pt reads i (idx + 1) info
      ⟨r.info, r.idx, .errMsg "Error while reading into buffer" :: r.acts,
        r.endLoop, r.halted⟩

/-- The accumulator update when a measure fires: compute `last_bps`, bump
`total_measures`, add into `total_bps`. -/
def measuredInfo (info : TransferInfo) (d : DurationM) : TransferInfo :=
  let bps := bytes_per_second info.last_bytes_transferred d
  { info with
    last_bps := bps,
    total_measures := info.total_measures + 1,
    total_bps := info.total_bps + bps }

/-- The post-report reset: `last_bps = 0.0; last_bytes_transferred = 0`. -/
def resetInfo (info : TransferInfo) : TransferInfo :=
  { info with last_bps := 0, last_bytes_transferred := 0 }

/-- The `loop` of `measure_reader`.  One `Tick` is consumed per outer
iteration; the run ends with `.done` on the source's `if end_loop { return }`,
with `.halted` on `exit_err`, and with `.fuel` when the tick supply is
exhausted while the loop would continue. -/
def measure_reader (it : Nat) (pt : Bool) (reads : Nat → ReadEvent) :
    List Tick → Nat → TransferInfo → RunResult
  | [], idx, info => ⟨.fuel, info, idx, [], []⟩
  | t :: ts, idx, info =>
    let r := measure_inner pt reads it idx info
    if r.halted then ⟨.halted, r.info, r.idx, r.acts, []⟩
    else if 0 < t.dur.secs ∨ r.endLoop = true then
      let info1 := measuredInfo r.info t.dur
      if t.pfail then
        ⟨.halted, info1, r.idx,
          r.acts ++ [.errMsg "Error while printing output", .exit],
          [info1.last_bps]⟩
      else
        let acts1 := r.acts ++
          [.report (if pt then Channel.stderr else Channel.stdout) (print_info info1)]
        if r.endLoop then ⟨.done, resetInfo info1, r.idx, acts1, [info1.last_bps]⟩
        else
          let rest := measure_reader it pt reads ts r.idx (resetInfo info1)
          ⟨rest.status, rest.info, rest.idx, acts1 ++ rest.acts,
            info1.last_bps :: rest.rates⟩
    else if r.endLoop then ⟨.done, r.info, r.idx, r.acts, []⟩
    else
      let rest := measure_reader it pt reads ts r.idx r.info
      ⟨rest.status, rest.info, rest.idx, r.acts ++ rest.acts, rest.rates⟩

/-- Bytes returned by one read event (a failed read returns none). -/
def okBytes : ReadEvent → Nat
  | .ok data _ => data.length
  | .rerr => 0

/-- Total bytes returned by the `n` reads starting at index `idx`. -/
def readSum (reads : Nat → ReadEvent) (idx : Nat) : Nat → Nat
  | 0 => 0
  | n + 1 => okBytes (reads idx) + readSum reads (idx + 1) n

/-- The data returned by one read event. -/
def okData : ReadEvent → List Nat
  | .ok data _ => data
  | .rerr => []

/-- Concatenated data of the `n` reads starting at index `idx`. -/
def readData (reads : Nat → ReadEvent) (idx : Nat) : Nat → List Nat
  | 0 => []
  | n + 1 => okData (reads idx) ++ readData reads (idx + 1) n

/-- Bytes an action trace writes to the passthrough output. -/
def outBytes : List Action → List Nat
  | [] => []
  | .writeOut d :: rest => d ++ outBytes rest
  | _ :: rest => outBytes rest

/-- Whether an action is a rendered report. -/
def isReport : Action → Bool
  | .report _ _ => true
  | _ => false

/-- Number of reports in an action trace. -/
def reportCount (acts : List Action) : Nat := (acts.filter isReport).length

/-- Ghost flag of a read event: would the passthrough write of it fail. -/
def wfailOf : ReadEvent → Bool
  | .ok _ w => w
  | .rerr => false

def statusIsDone : Status → Bool
  | .done => true
  | _ => false

/-- ASCII decimal digit test. -/
def isAsciiDigit (c : Char) : Bool := 48 ≤ c.toNat && c.toNat ≤ 57

/-- Value of a most-significant-first digit list. -/
def digitsToNat : List Char → Nat → Nat
  | [], acc => acc
  | c :: cs, acc => digitsToNat cs (acc * 10 + (c.toNat - 48))

/-- Rust's `str::parse` for an unsigned integer type with exclusive upper
bound `bound`: an optional leading plus sign, then one or more ASCII digits,
failing on overflow. -/
def parseUnsignedBelow (bound : Nat) (s : String) : Option Nat :=
  let cs : List Char :=
    match s.data with
    | '+' :: rest => rest
    | cs => cs
  if cs.isEmpty then none
  else if cs.all isAsciiDigit then
    let v := digitsToNat cs 0
    if v < bound then some v else none
  else none

/-- `str::parse::<usize>` (64-bit). -/
def parseUsize (s : String) : Option Nat := parseUnsignedBelow (2 ^ 64) s

/-- `str::parse::<u16>`. -/
def parseU16 (s : String) : Option Nat := parseUnsignedBelow (2 ^ 16) s

/-- The clap matches `main` consults: presence/value of each argument. -/
structure ArgMatches where
  pass : Bool
  buffer_size : Option String
  iterations : Option String
  address : Option String
  port : Option String
deriving DecidableEq, Repr

/-- What `main` does with its arguments before any I/O:
`configError msg` models `print_err!(msg)` to standard error followed by
`exit_err()` (process exit with status 1, no Sampler run);
`runTcp` models the call `measure_tcp_stream(address, port, ...)` (which then
parses the IP address and binds); `runStdin` models `measure_stdin(...)`. -/
inductive MainOutcome where
  | configError (msg : String)
  | runTcp (address : String) (port : Nat) (buffer_size : Nat)
      (iterations : Nat) (passthrough : Bool)
  | runStdin (buffer_size : Nat) (iterations : Nat) (passthrough : Bool)
deriving DecidableEq, Repr

def isConfigError : MainOutcome → Bool
  | .configError _ => true
  | _ => false

/-- Process exit status decided by `main` itself (`exit_err` exits with 1). -/
def exitCode : MainOutcome → Option Nat
  | .configError _ => some 1
  | _ => none

/-- The argument handling of `main` (lines 103-149 of the source). -/
def mainConfig (m : ArgMatches) : MainOutcome :=
  let passthrough := m.pass
  let bufferRes : Except String Nat :=
    match m.buffer_size with
    | some s =>
      match parseUsize s with
      | some bsize => .ok bsize
      | none => .error "Buffer size must be a valid number."
    | none => .ok DEFAULT_BUFFER_SIZE
  match bufferRes with
  | .error msg => .configError msg
  | .ok buffer_size =>
    let iterRes : Except String Nat :=
      match m.iterations with
      | some s =>
        match parseUsize s with
        | some itv => .ok itv
        | none => .error "Iterations must be a valid number."
      | none => .ok DEFAULT_ITERATION_COUNT
    match iterRes with
    | .error msg => .configError msg
    | .ok iterations =>
      let address_present := m.address.isSome
      let port_present := m.port.isSome
      if address_present || port_present then
        if !port_present then
          .configError "A port must be speicified alongside a address."
        else
          let address := m.address.getD DEFAULT_ADDRESS
          let port := m.port.getD ""
          match parseU16 port with
          | some parsed_port =>
            .runTcp address parsed_port buffer_size iterations passthrough
          | none => .configError "Port must be a valid number from 0 to 65535"
      else
        .runStdin buffer_size iterations passthrough

/-! ### Step characterizations of the inner read stage -/

theorem measure_inner_succ_eof (pt : Bool) (reads : Nat → ReadEvent)
    (i idx : Nat) (info : TransferInfo) (data : List Nat) (wfail : Bool)
    (hev : reads idx = .ok data wfail) (hz : data.length = 0) :
    measure_inner pt reads (i + 1) idx info =
      ⟨addBytes info data.length, idx + 1, [], true, false⟩ := by
  simp [measure_inner, hev, hz]

theorem measure_inner_succ_halt (pt : Bool) (reads : Nat → ReadEvent)
    (i idx : Nat) (info : TransferInfo) (data : List Nat) (wfail : Bool)
    (hev : reads idx = .ok data wfail) (hz : data.length ≠ 0)
    (hpt : pt = true) (hw : wfail = true) :
    measure_inner pt reads (i + 1) idx info =
      ⟨addBytes info data.length, idx + 1,
        [.errMsg "Error while writing buffer into stdout", .exit], false, true⟩ := by
  subst hpt; subst hw
  simp [measure_inner, hev, hz]

theorem measure_inner_succ_ok (pt : Bool) (reads : Nat → ReadEvent)
    (i idx : Nat) (info : TransferInfo) (data : List Nat) (wfail : Bool)
    (hev : reads idx = .ok data wfail) (hz : data.length ≠ 0)
    (hnh : pt = false ∨ wfail = false) :
    measure_inner pt reads (i + 1) idx info =
      { measure_inner pt reads i (idx + 1) (addBytes info data.length) with
        acts :=
          if pt then
            Action.writeOut data ::
              (measure_inner pt reads i (idx + 1) (addBytes info data.length)).acts
          else (measure_inner pt reads i (idx + 1) (addBytes info data.length)).acts } := by
  cases hpt : pt <;> cases hw : wfail <;> subst hpt <;> subst hw <;>
    simp_all [measure_inner, hev, hz]

theorem measure_inner_succ_rerr (pt : Bool) (reads : Nat → ReadEvent)
    (i idx : Nat) (info : TransferInfo) (hev : reads idx = .rerr) :
    measure_inner pt reads (i + 1) idx info =
      { measure_inner pt reads i (idx + 1) info with
        acts := .errMsg "Error while reading into buffer" ::
          (measure_inner pt reads i (idx + 1) info).acts } := by
  simp [measure_inner, hev]

/-- Either a successful nonzero read proceeds (no halt), or, with passthrough
and a failing write, the stage halts: case split used by the lemmas below. -/
theorem measure_inner_cases (pt wfail : Bool) :
    (pt = true ∧ wfail = true) ∨ (pt = false ∨ wfail = false) := by
  cases pt <;> cases wfail <;> simp

/-! ### Lemmas about the inner read stage -/

theorem measure_inner_idx_le (pt : Bool) (reads : Nat → ReadEvent) :
    ∀ (it idx : Nat) (info : TransferInfo),
      idx ≤ (measure_inner pt reads it idx info).idx := by
  intro it
  induction it with
  | zero => intro idx info; simp [measure_inner]
  | succ i ih =>
    intro idx info
    cases hev : reads idx with
    | ok data wfail =>
      by_cases hz : data.length = 0
      · rw [measure_inner_succ_eof pt reads i idx info data wfail hev hz]
        exact Nat.le_succ idx
      · rcases measure_inner_cases pt wfail with ⟨hpt, hw⟩ | hnh
        · rw [measure_inner_succ_halt pt reads i idx info data wfail hev hz hpt hw]
          exact Nat.le_succ idx
        · rw [measure_inner_succ_ok pt reads i idx info data wfail hev hz hnh]
          exact Nat.le_trans (Nat.le_succ idx) (ih (idx + 1) _)
    | rerr =>
      rw [measure_inner_succ_rerr pt reads i idx info hev]
      exact Nat.le_trans (Nat.le_succ idx) (ih (idx + 1) _)

theorem addBytes_total (info : TransferInfo) (n : Nat) :
    (addBytes info n).total_bytes_transferred = info.total_bytes_transferred + n := rfl

theorem addBytes_last (info : TransferInfo) (n : Nat) :
    (addBytes info n).last_bytes_transferred = info.last_bytes_transferred + n := rfl

theorem addBytes_measures (info : TransferInfo) (n : Nat) :
    (addBytes info n).total_measures = info.total_measures := rfl

theorem addBytes_total_bps (info : TransferInfo) (n : Nat) :
    (addBytes info n).total_bps = info.total_bps := rfl

theorem addBytes_last_bps (info : TransferInfo) (n : Nat) :
    (addBytes info n).last_bps = info.last_bps := rfl

theorem acts_update_info (X : InnerResult) (A : List Action) :
    ({ X with acts := A } : InnerResult).info = X.info := rfl

theorem acts_update_idx (X : InnerResult) (A : List Action) :
    ({ X with acts := A } : InnerResult).idx = X.idx := rfl

theorem acts_update_acts (X : InnerResult) (A : List Action) :
    ({ X with acts := A } : InnerResult).acts = A := rfl

theorem acts_update_endLoop (X : InnerResult) (A : List Action) :
    ({ X with acts := A } : InnerResult).endLoop = X.endLoop := rfl

theorem acts_update_halted (X : InnerResult) (A : List Action) :
    ({ X with acts := A } : InnerResult).halted = X.halted := rfl

theorem readSum_succ (reads : Nat → ReadEvent) (idx n : Nat) :
    readSum reads idx (n + 1) = okBytes (reads idx) + readSum reads (idx + 1) n := rfl

theorem readSum_one (reads : Nat → ReadEvent) (idx : Nat) :
    readSum reads idx 1 = okBytes (reads idx) := by
  simp [readSum]

theorem readData_succ (reads : Nat → ReadEvent) (idx n : Nat) :
    readData reads idx (n + 1) = okData (reads idx) ++ readData reads (idx + 1) n := rfl

theorem readData_one (reads : Nat → ReadEvent) (idx : Nat) :
    readData reads idx 1 = okData (reads idx) := by
  simp [readData]

theorem measure_inner_total (pt : Bool) (reads : Nat → ReadEvent) :
    ∀ (it idx : Nat) (info : TransferInfo),
      (measure_inner pt reads it idx info).info.total_bytes_transferred
        = info.total_bytes_transferred
          + readSum reads idx ((measure_inner pt reads it idx info).idx - idx) := by
  intro it
  induction it with
  | zero => intro idx info; simp [measure_inner, readSum]
  | succ i ih =>
    intro idx info
    cases hev : reads idx with
    | ok data wfail =>
      by_cases hz : data.length = 0
      · rw [measure_inner_succ_eof pt reads i idx info data wfail hev hz]
        simp [addBytes, Nat.add_sub_cancel_left, readSum_one, okBytes, hev, hz]
      · rcases measure_inner_cases pt wfail with ⟨hpt, hw⟩ | hnh
        · rw [measure_inner_succ_halt pt reads i idx info data wfail hev hz hpt hw]
          simp [addBytes, Nat.add_sub_cancel_left, readSum_one, okBytes, hev]
        · rw [measure_inner_succ_ok pt reads i idx info data wfail hev hz hnh]
          rw [acts_update_info, acts_update_idx]
          have hle := measure_inner_idx_le pt reads i (idx + 1) (addBytes info data.length)
          have ht := ih (idx + 1) (addBytes info data.length)
          rw [addBytes_total] at ht
          have hsplit : (measure_inner pt reads i (idx + 1)
              (addBytes info data.length)).idx - idx
              = ((measure_inner pt reads i (idx + 1)
                  (addBytes info data.length)).idx - (idx + 1)) + 1 := by omega
          rw [hsplit, readSum_succ]
          simp only [okBytes, hev]
          omega
    | rerr =>
      rw [measure_inner_succ_rerr pt reads i idx info hev]
      rw [acts_update_info, acts_update_idx]
      have hle := measure_inner_idx_le pt reads i (idx + 1) info
      have ht := ih (idx + 1) info
      have hsplit : (measure_inner pt reads i (idx + 1) info).idx - idx
          = ((measure_inner pt reads i (idx + 1) info).idx - (idx + 1)) + 1 := by omega
      rw [hsplit, readSum_succ]
      simp only [okBytes, hev]
      omega

theorem measure_inner_pres (pt : Bool) (reads : Nat → ReadEvent) :
    ∀ (it idx : Nat) (info : TransferInfo),
      (measure_inner pt reads it idx info).info.total_measures = info.total_measures
      ∧ (measure_inner pt reads it idx info).info.total_bps = info.total_bps
      ∧ (measure_inner pt reads it idx info).info.last_bps = info.last_bps := by
  intro it
  induction it with
  | zero => intro idx info; simp [measure_inner]
  | succ i ih =>
    intro idx info
    cases hev : reads idx with
    | ok data wfail =>
      by_cases hz : data.length = 0
      · rw [measure_inner_succ_eof pt reads i idx info data wfail hev hz]
        simp [addBytes]
      · rcases measure_inner_cases pt wfail with ⟨hpt, hw⟩ | hnh
        · rw [measure_inner_succ_halt pt reads i idx info data wfail hev hz hpt hw]
          simp [addBytes]
        · rw [measure_inner_succ_ok pt reads i idx info data wfail hev hz hnh]
          rw [acts_update_info]
          have ht := ih (idx + 1) (addBytes info data.length)
          simp only [addBytes_measures, addBytes_total_bps, addBytes_last_bps] at ht
          exact ht
    | rerr =>
      rw [measure_inner_succ_rerr pt reads i idx info hev]
      rw [acts_update_info]
      exact ih (idx + 1) info

theorem measure_inner_no_report (pt : Bool) (reads : Nat → ReadEvent) :
    ∀ (it idx : Nat) (info : TransferInfo) (a : Action),
      a ∈ (measure_inner pt reads it idx info).acts → isReport a = false := by
  intro it
  induction it with
  | zero => intro idx info a ha; simp [measure_inner] at ha
  | succ i ih =>
    intro idx info a ha
    cases hev : reads idx with
    | ok data wfail =>
      by_cases hz : data.length = 0
      · rw [measure_inner_succ_eof pt reads i idx info data wfail hev hz] at ha
        simp at ha
      · rcases measure_inner_cases pt wfail with ⟨hpt, hw⟩ | hnh
        · rw [measure_inner_succ_halt pt reads i idx info data wfail hev hz hpt hw] at ha
          simp at ha
          rcases ha with h | h <;> subst h <;> rfl
        · rw [measure_inner_succ_ok pt reads i idx info data wfail hev hz hnh] at ha
          rw [acts_update_acts] at ha
          cases hpt : pt with
          | true =>
            rw [hpt] at ha ih
            simp only [if_true, List.mem_cons] at ha
            rcases ha with h | h
            · subst h; rfl
            · exact ih (idx + 1) _ a h
          | false =>
            rw [hpt] at ha ih
            simp only [Bool.false_eq_true, if_false] at ha
            exact ih (idx + 1) _ a ha
    | rerr =>
      rw [measure_inner_succ_rerr pt reads i idx info hev] at ha
      rw [acts_update_acts] at ha
      simp only [List.mem_cons] at ha
      rcases ha with h | h
      · subst h; rfl
      · exact ih (idx + 1) _ a h

theorem measure_inner_out (reads : Nat → ReadEvent)
    (noF : ∀ j, wfailOf (reads j) = false) :
    ∀ (it idx : Nat) (info : TransferInfo),
      outBytes (measure_inner true reads it idx info).acts
        = readData reads idx ((measure_inner true reads it idx info).idx - idx) := by
  intro it
  induction it with
  | zero => intro idx info; simp [measure_inner, readData, outBytes]
  | succ i ih =>
    intro idx info
    cases hev : reads idx with
    | ok data wfail =>
      have hwf : wfail = false := by
        have := noF idx
        rw [hev] at this
        simpa [wfailOf] using this
      by_cases hz : data.length = 0
      · rw [measure_inner_succ_eof true reads i idx info data wfail hev hz]
        have hdata : data = [] := List.length_eq_zero.mp hz
        simp [Nat.add_sub_cancel_left, readData_one, okData, hev, hdata, outBytes]
      · rw [measure_inner_succ_ok true reads i idx info data wfail hev hz (Or.inr hwf)]
        rw [acts_update_acts, acts_update_idx]
        simp only [if_true]
        have hle := measure_inner_idx_le true reads i (idx + 1) (addBytes info data.length)
        have ht := ih (idx + 1) (addBytes info data.length)
        have hsplit : (measure_inner true reads i (idx + 1)
            (addBytes info data.length)).idx - idx
            = ((measure_inner true reads i (idx + 1)
                (addBytes info data.length)).idx - (idx + 1)) + 1 := by omega
        rw [hsplit, readData_succ]
        simp only [okData, hev, outBytes]
        rw [ht]
    | rerr =>
      rw [measure_inner_succ_rerr true reads i idx info hev]
      rw [acts_update_acts, acts_update_idx]
      have hle := measure_inner_idx_le true reads i (idx + 1) info
      have ht := ih (idx + 1) info
      have hsplit : (measure_inner true reads i (idx + 1) info).idx - idx
          = ((measure_inner true reads i (idx + 1) info).idx - (idx + 1)) + 1 := by omega
      rw [hsplit, readData_succ]
      simp only [okData, hev, outBytes]
      rw [ht]
      simp

theorem measure_inner_eof (pt : Bool) (reads : Nat → ReadEvent) :
    ∀ (it idx : Nat) (info : TransferInfo),
      (measure_inner pt reads it idx info).endLoop = true →
      ∃ j w, idx ≤ j ∧ j < (measure_inner pt reads it idx info).idx
        ∧ reads j = ReadEvent.ok [] w := by
  intro it
  induction it with
  | zero => intro idx info h; simp [measure_inner] at h
  | succ i ih =>
    intro idx info h
    cases hev : reads idx with
    | ok data wfail =>
      by_cases hz : data.length = 0
      · rw [measure_inner_succ_eof pt reads i idx info data wfail hev hz]
        have hdata : data = [] := List.length_eq_zero.mp hz
        exact ⟨idx, wfail, Nat.le_refl idx, Nat.lt_succ_self idx, by rw [hev, hdata]⟩
      · rcases measure_inner_cases pt wfail with ⟨hpt, hw⟩ | hnh
        · rw [measure_inner_succ_halt pt reads i idx info data wfail hev hz hpt hw] at h
          simp at h
        · rw [measure_inner_succ_ok pt reads i idx info data wfail hev hz hnh] at h ⊢
          rw [acts_update_endLoop] at h
          rw [acts_update_idx]
          obtain ⟨j, w, hj1, hj2, hj3⟩ := ih (idx + 1) (addBytes info data.length) h
          exact ⟨j, w, by omega, hj2, hj3⟩
    | rerr =>
      rw [measure_inner_succ_rerr pt reads i idx info hev] at h ⊢
      rw [acts_update_endLoop] at h
      rw [acts_update_idx]
      obtain ⟨j, w, hj1, hj2, hj3⟩ := ih (idx + 1) info h
      exact ⟨j, w, by omega, hj2, hj3⟩

/-! ### List helpers -/

theorem outBytes_append (a b : List Action) :
    outBytes (a ++ b) = outBytes a ++ outBytes b := by
  induction a with
  | nil => simp [outBytes]
  | cons x xs ih =>
    cases x <;> simp [outBytes, ih]

theorem reportCount_append (a b : List Action) :
    reportCount (a ++ b) = reportCount a + reportCount b := by
  simp [reportCount, List.filter_append]

theorem reportCount_eq_zero (a : List Action)
    (h : ∀ x ∈ a, isReport x = false) : reportCount a = 0 := by
  simp only [reportCount, List.length_eq_zero]
  rw [List.filter_eq_nil_iff]
  intro x hx
  simp [h x hx]

theorem getLast?_append_singleton (l : List Action) (a : Action) :
    (l ++ [a]).getLast? = some a := List.getLast?_concat l

theorem getLast?_append_of_getLast? (l b : List Action) (a : Action)
    (h : b.getLast? = some a) : (l ++ b).getLast? = some a := by
  rw [List.getLast?_append, h]
  rfl

/-! ### Step characterizations of the outer loop -/

theorem measure_reader_nil (it : Nat) (pt : Bool) (reads : Nat → ReadEvent)
    (idx : Nat) (info : TransferInfo) :
    measure_reader it pt reads [] idx info = ⟨.fuel, info, idx, [], []⟩ := rfl

theorem measure_reader_cons_halt (it : Nat) (pt : Bool) (reads : Nat → ReadEvent)
    (t : Tick) (ts : List Tick) (idx : Nat) (info : TransferInfo)
    (hH : (measure_inner pt reads it idx info).halted = true) :
    measure_reader it pt reads (t :: ts) idx info =
      ⟨.halted, (measure_inner pt reads it idx info).info,
        (measure_inner pt reads it idx info).idx,
        (measure_inner pt reads it idx info).acts, []⟩ := by
  simp [measure_reader, hH]

theorem measure_reader_cons_pfail (it : Nat) (pt : Bool) (reads : Nat → ReadEvent)
    (t : Tick) (ts : List Tick) (idx : Nat) (info : TransferInfo)
    (hH : (measure_inner pt reads it idx info).halted = false)
    (hF : 0 < t.dur.secs ∨ (measure_inner pt reads it idx info).endLoop = true)
    (hP : t.pfail = true) :
    measure_reader it pt reads (t :: ts) idx info =
      ⟨.halted, measuredInfo (measure_inner pt reads it idx info).info t.dur,
        (measure_inner pt reads it idx info).idx,
        (measure_inner pt reads it idx info).acts
          ++ [.errMsg "Error while printing output", .exit],
        [(measuredInfo (measure_inner pt reads it idx info).info t.dur).last_bps]⟩ := by
  simp [measure_reader, hH, hF, hP]

theorem measure_reader_cons_done (it : Nat) (pt : Bool) (reads : Nat → ReadEvent)
    (t : Tick) (ts : List Tick) (idx : Nat) (info : TransferInfo)
    (hH : (measure_inner pt reads it idx info).halted = false)
    (hE : (measure_inner pt reads it idx info).endLoop = true)
    (hP : t.pfail = false) :
    measure_reader it pt reads (t :: ts) idx info =
      ⟨.done,
        resetInfo (measuredInfo (measure_inner pt reads it idx info).info t.dur),
        (measure_inner pt reads it idx info).idx,
        (measure_inner pt reads it idx info).acts
          ++ [.report (if pt then Channel.stderr else Channel.stdout)
                (print_info (measuredInfo (measure_inner pt reads it idx info).info t.dur))],
        [(measuredInfo (measure_inner pt reads it idx info).info t.dur).last_bps]⟩ := by
  simp [measure_reader, hH, hE, hP]

theorem measure_reader_cons_report (it : Nat) (pt : Bool) (reads : Nat → ReadEvent)
    (t : Tick) (ts : List Tick) (idx : Nat) (info : TransferInfo)
    (hH : (measure_inner pt reads it idx info).halted = false)
    (hE : (measure_inner pt reads it idx info).endLoop = false)
    (hd : 0 < t.dur.secs)
    (hP : t.pfail = false) :
    measure_reader it pt reads (t :: ts) idx info =
      ⟨(measure_reader it pt reads ts (measure_inner pt reads it idx info).idx
          (resetInfo (measuredInfo (measure_inner pt reads it idx info).info t.dur))).status,
        (measure_reader it pt reads ts (measure_inner pt reads it idx info).idx
          (resetInfo (measuredInfo (measure_inner pt reads it idx info).info t.dur))).info,
        (measure_reader it pt reads ts (measure_inner pt reads it idx info).idx
          (resetInfo (measuredInfo (measure_inner pt reads it idx info).info t.dur))).idx,
        ((measure_inner pt reads it idx info).acts
          ++ [.report (if pt then Channel.stderr else Channel.stdout)
                (print_info (measuredInfo (measure_inner pt reads it idx info).info t.dur))])
          ++ (measure_reader it pt reads ts (measure_inner pt reads it idx info).idx
              (resetInfo (measuredInfo (measure_inner pt reads it idx info).info t.dur))).acts,
        (measuredInfo (measure_inner pt reads it idx info).info t.dur).last_bps
          :: (measure_reader it pt reads ts (measure_inner pt reads it idx info).idx
              (resetInfo (measuredInfo (measure_inner pt reads it idx info).info t.dur))).rates⟩ := by
  simp [measure_reader, hH, hE, hd, hP]

theorem measure_reader_cons_skip (it : Nat) (pt : Bool) (reads : Nat → ReadEvent)
    (t : Tick) (ts : List Tick) (idx : Nat) (info : TransferInfo)
    (hH : (measure_inner pt reads it idx info).halted = false)
    (hE : (measure_inner pt reads it idx info).endLoop = false)
    (hd : t.dur.secs = 0) :
    measure_reader it pt reads (t :: ts) idx info =
      ⟨(measure_reader it pt reads ts (measure_inner pt reads it idx info).idx
          (measure_inner pt reads it idx info).info).status,
        (measure_reader it pt reads ts (measure_inner pt reads it idx info).idx
          (measure_inner pt reads it idx info).info).info,
        (measure_reader it pt reads ts (measure_inner pt reads it idx info).idx
          (measure_inner pt reads it idx info).info).idx,
        (measure_inner pt reads it idx info).acts
          ++ (measure_reader it pt reads ts (measure_inner pt reads it idx info).idx
              (measure_inner pt reads it idx info).info).acts,
        (measure_reader it pt reads ts (measure_inner pt reads it idx info).idx
          (measure_inner pt reads it idx info).info).rates⟩ := by
  simp [measure_reader, hH, hE, hd]

/-! ### Field lemmas for the measure/reset updates -/

theorem measuredInfo_total (i : TransferInfo) (d : DurationM) :
    (measuredInfo i d).total_bytes_transferred = i.total_bytes_transferred := rfl

theorem measuredInfo_measures (i : TransferInfo) (d : DurationM) :
    (measuredInfo i d).total_measures = i.total_measures + 1 := rfl

theorem measuredInfo_total_bps (i : TransferInfo) (d : DurationM) :
    (measuredInfo i d).total_bps
      = i.total_bps + bytes_per_second i.last_bytes_transferred d := rfl

theorem measuredInfo_last_bps (i : TransferInfo) (d : DurationM) :
    (measuredInfo i d).last_bps = bytes_per_second i.last_bytes_transferred d := rfl

theorem resetInfo_total (i : TransferInfo) :
    (resetInfo i).total_bytes_transferred = i.total_bytes_transferred := rfl

theorem resetInfo_measures (i : TransferInfo) :
    (resetInfo i).total_measures = i.total_measures := rfl

theorem resetInfo_total_bps (i : TransferInfo) :
    (resetInfo i).total_bps = i.total_bps := rfl

theorem readSum_add (reads : Nat → ReadEvent) :
    ∀ (m idx n : Nat),
      readSum reads idx (m + n) = readSum reads idx m + readSum reads (idx + m) n := by
  intro m
  induction m with
  | zero => intro idx n; simp [readSum]
  | succ m ih =>
    intro idx n
    have h1 : m + 1 + n = (m + n) + 1 := by omega
    rw [h1, readSum_succ, readSum_succ, ih (idx + 1) n]
    have h2 : idx + 1 + m = idx + (m + 1) := by omega
    rw [h2]
    omega

theorem readData_add (reads : Nat → ReadEvent) :
    ∀ (m idx n : Nat),
      readData reads idx (m + n) = readData reads idx m ++ readData reads (idx + m) n := by
  intro m
  induction m with
  | zero => intro idx n; simp [readData]
  | succ m ih =>
    intro idx n
    have h1 : m + 1 + n = (m + n) + 1 := by omega
    rw [h1, readData_succ, readData_succ, ih (idx + 1) n]
    have h2 : idx + 1 + m = idx + (m + 1) := by omega
    rw [h2, List.append_assoc]

/-! ### Run-level invariants -/

theorem measure_reader_idx_le (it : Nat) (pt : Bool) (reads : Nat → ReadEvent) :
    ∀ (ts : List Tick) (idx : Nat) (info : TransferInfo),
      idx ≤ (measure_reader it pt reads ts idx info).idx := by
  intro ts
  induction ts with
  | nil => intro idx info; rw [measure_reader_nil]
  | cons t ts ih =>
    intro idx info
    have hinner := measure_inner_idx_le pt reads it idx info
    cases hH : (measure_inner pt reads it idx info).halted with
    | true =>
      rw [measure_reader_cons_halt it pt reads t ts idx info hH]
      exact hinner
    | false =>
      cases hE : (measure_inner pt reads it idx info).endLoop with
      | true =>
        cases hP : t.pfail with
        | true =>
          rw [measure_reader_cons_pfail it pt reads t ts idx info hH (Or.inr hE) hP]
          exact hinner
        | false =>
          rw [measure_reader_cons_done it pt reads t ts idx info hH hE hP]
          exact hinner
      | false =>
        by_cases hd : 0 < t.dur.secs
        · cases hP : t.pfail with
          | true =>
            rw [measure_reader_cons_pfail it pt reads t ts idx info hH (Or.inl hd) hP]
            exact hinner
          | false =>
            rw [measure_reader_cons_report it pt reads t ts idx info hH hE hd hP]
            exact Nat.le_trans hinner (ih _ _)
        · have hd0 : t.dur.secs = 0 := by omega
          rw [measure_reader_cons_skip it pt reads t ts idx info hH hE hd0]
          exact Nat.le_trans hinner (ih _ _)

theorem measure_reader_total (it : Nat) (pt : Bool) (reads : Nat → ReadEvent) :
    ∀ (ts : List Tick) (idx : Nat) (info : TransferInfo),
      (measure_reader it pt reads ts idx info).info.total_bytes_transferred
        = info.total_bytes_transferred
          + readSum reads idx ((measure_reader it pt reads ts idx info).idx - idx) := by
  intro ts
  induction ts with
  | nil =>
    intro idx info
    rw [measure_reader_nil]
    simp [readSum]
  | cons t ts ih =>
    intro idx info
    have hle1 := measure_inner_idx_le pt reads it idx info
    have ht1 := measure_inner_total pt reads it idx info
    cases hH : (measure_inner pt reads it idx info).halted with
    | true =>
      rw [measure_reader_cons_halt it pt reads t ts idx info hH]
      exact ht1
    | false =>
      cases hE : (measure_inner pt reads it idx info).endLoop with
      | true =>
        cases hP : t.pfail with
        | true =>
          rw [measure_reader_cons_pfail it pt reads t ts idx info hH (Or.inr hE) hP]
          exact ht1
        | false =>
          rw [measure_reader_cons_done it pt reads t ts idx info hH hE hP]
          exact ht1
      | false =>
        by_cases hd : 0 < t.dur.secs
        · cases hP : t.pfail with
          | true =>
            rw [measure_reader_cons_pfail it pt reads t ts idx info hH (Or.inl hd) hP]
            exact ht1
          | false =>
            rw [measure_reader_cons_report it pt reads t ts idx info hH hE hd hP]
            dsimp only
            have hle2 := measure_reader_idx_le it pt reads ts
              (measure_inner pt reads it idx info).idx
              (resetInfo (measuredInfo (measure_inner pt reads it idx info).info t.dur))
            have ht2 := ih (measure_inner pt reads it idx info).idx
              (resetInfo (measuredInfo (measure_inner pt reads it idx info).info t.dur))
            rw [resetInfo_total, measuredInfo_total] at ht2
            have harg : (measure_reader it pt reads ts
                  (measure_inner pt reads it idx info).idx
                  (resetInfo (measuredInfo
                    (measure_inner pt reads it idx info).info t.dur))).idx - idx
                = ((measure_inner pt reads it idx info).idx - idx)
                  + ((measure_reader it pt reads ts
                      (measure_inner pt reads it idx info).idx
                      (resetInfo (measuredInfo
                        (measure_inner pt reads it idx info).info t.dur))).idx
                    - (measure_inner pt reads it idx info).idx) := by omega
            rw [harg, readSum_add]
            have hidx : idx + ((measure_inner pt reads it idx info).idx - idx)
                = (measure_inner pt reads it idx info).idx := by omega
            rw [hidx]
            omega
        · have hd0 : t.dur.secs = 0 := by omega
          rw [measure_reader_cons_skip it pt reads t ts idx info hH hE hd0]
          dsimp only
          have hle2 := measure_reader_idx_le it pt reads ts
            (measure_inner pt reads it idx info).idx
            (measure_inner pt reads it idx info).info
          have ht2 := ih (measure_inner pt reads it idx info).idx
            (measure_inner pt reads it idx info).info
          have harg : (measure_reader it pt reads ts
                (measure_inner pt reads it idx info).idx
                (measure_inner pt reads it idx info).info).idx - idx
              = ((measure_inner pt reads it idx info).idx - idx)
                + ((measure_reader it pt reads ts
                    (measure_inner pt reads it idx info).idx
                    (measure_inner pt reads it idx info).info).idx
                  - (measure_inner pt reads it idx info).idx) := by omega
          rw [harg, readSum_add]
          have hidx : idx + ((measure_inner pt reads it idx info).idx - idx)
              = (measure_inner pt reads it idx info).idx := by omega
          rw [hidx]
          omega

theorem measure_reader_rates (it : Nat) (pt : Bool) (reads : Nat → ReadEvent) :
    ∀ (ts : List Tick) (idx : Nat) (info : TransferInfo),
      (measure_reader it pt reads ts idx info).info.total_bps
        = info.total_bps + ((measure_reader it pt reads ts idx info).rates).sum
      ∧ (measure_reader it pt reads ts idx info).info.total_measures
        = info.total_measures + ((measure_reader it pt reads ts idx info).rates).length := by
  intro ts
  induction ts with
  | nil =>
    intro idx info
    rw [measure_reader_nil]
    simp
  | cons t ts ih =>
    intro idx info
    obtain ⟨hm, hb, -⟩ := measure_inner_pres pt reads it idx info
    cases hH : (measure_inner pt reads it idx info).halted with
    | true =>
      rw [measure_reader_cons_halt it pt reads t ts idx info hH]
      dsimp only
      constructor
      · simp [hb]
      · simp [hm]
    | false =>
      cases hE : (measure_inner pt reads it idx info).endLoop with
      | true =>
        cases hP : t.pfail with
        | true =>
          rw [measure_reader_cons_pfail it pt reads t ts idx info hH (Or.inr hE) hP]
          dsimp only
          constructor
          · rw [measuredInfo_total_bps, measuredInfo_last_bps, hb]
            simp
          · rw [measuredInfo_measures, hm]
            simp
        | false =>
          rw [measure_reader_cons_done it pt reads t ts idx info hH hE hP]
          dsimp only
          constructor
          · rw [resetInfo_total_bps, measuredInfo_total_bps, measuredInfo_last_bps, hb]
            simp
          · rw [resetInfo_measures, measuredInfo_measures, hm]
            simp
      | false =>
        by_cases hd : 0 < t.dur.secs
        · cases hP : t.pfail with
          | true =>
            rw [measure_reader_cons_pfail it pt reads t ts idx info hH (Or.inl hd) hP]
            dsimp only
            constructor
            · rw [measuredInfo_total_bps, measuredInfo_last_bps, hb]
              simp
            · rw [measuredInfo_measures, hm]
              simp
          | false =>
            rw [measure_reader_cons_report it pt reads t ts idx info hH hE hd hP]
            dsimp only
            obtain ⟨ihb, ihm⟩ := ih (measure_inner pt reads it idx info).idx
              (resetInfo (measuredInfo (measure_inner pt reads it idx info).info t.dur))
            rw [resetInfo_total_bps, measuredInfo_total_bps] at ihb
            rw [resetInfo_measures, measuredInfo_measures] at ihm
            constructor
            · rw [List.sum_cons, ihb, hb, measuredInfo_last_bps]
              ring
            · rw [List.length_cons, ihm, hm]
              omega
        · have hd0 : t.dur.secs = 0 := by omega
          rw [measure_reader_cons_skip it pt reads t ts idx info hH hE hd0]
          dsimp only
          obtain ⟨ihb, ihm⟩ := ih (measure_inner pt reads it idx info).idx
            (measure_inner pt reads it idx info).info
          constructor
          · rw [ihb, hb]
          · rw [ihm, hm]

theorem measure_reader_chan (it : Nat) (pt : Bool) (reads : Nat → ReadEvent) :
    ∀ (ts : List Tick) (idx : Nat) (info : TransferInfo) (a : Action),
      a ∈ (measure_reader it pt reads ts idx info).acts →
      ∀ (ch : Channel) (txt : String), a = Action.report ch txt →
        ch = (if pt then Channel.stderr else Channel.stdout) := by
  intro ts
  induction ts with
  | nil =>
    intro idx info a ha
    rw [measure_reader_nil] at ha
    simp at ha
  | cons t ts ih =>
    intro idx info a ha
    cases hH : (measure_inner pt reads it idx info).halted with
    | true =>
      rw [measure_reader_cons_halt it pt reads t ts idx info hH] at ha
      dsimp only at ha
      intro ch txt heq
      have hnr := measure_inner_no_report pt reads it idx info a ha
      rw [heq] at hnr
      simp [isReport] at hnr
    | false =>
      cases hE : (measure_inner pt reads it idx info).endLoop with
      | true =>
        cases hP : t.pfail with
        | true =>
          rw [measure_reader_cons_pfail it pt reads t ts idx info hH (Or.inr hE) hP] at ha
          dsimp only at ha
          intro ch txt heq
          rcases List.mem_append.mp ha with h | h
          · have hnr := measure_inner_no_report pt reads it idx info a h
            rw [heq] at hnr
            simp [isReport] at hnr
          · subst heq
            simp at h
        | false =>
          rw [measure_reader_cons_done it pt reads t ts idx info hH hE hP] at ha
          dsimp only at ha
          intro ch txt heq
          rcases List.mem_append.mp ha with h | h
          · have hnr := measure_inner_no_report pt reads it idx info a h
            rw [heq] at hnr
            simp [isReport] at hnr
          · simp only [List.mem_singleton] at h
            subst h
            injection heq with h1 h2
            exact h1.symm
      | false =>
        by_cases hd : 0 < t.dur.secs
        · cases hP : t.pfail with
          | true =>
            rw [measure_reader_cons_pfail it pt reads t ts idx info hH (Or.inl hd) hP] at ha
            dsimp only at ha
            intro ch txt heq
            rcases List.mem_append.mp ha with h | h
            · have hnr := measure_inner_no_report pt reads it idx info a h
              rw [heq] at hnr
              simp [isReport] at hnr
            · subst heq
              simp at h
          | false =>
            rw [measure_reader_cons_report it pt reads t ts idx info hH hE hd hP] at ha
            dsimp only at ha
            intro ch txt heq
            rcases List.mem_append.mp ha with h | h
            · rcases List.mem_append.mp h with h2 | h2
              · have hnr := measure_inner_no_report pt reads it idx info a h2
                rw [heq] at hnr
                simp [isReport] at hnr
              · simp only [List.mem_singleton] at h2
                subst h2
                injection heq with h1 h2
                exact h1.symm
            · exact ih _ _ a h ch txt heq
        · have hd0 : t.dur.secs = 0 := by omega
          rw [measure_reader_cons_skip it pt reads t ts idx info hH hE hd0] at ha
          dsimp only at ha
          intro ch txt heq
          rcases List.mem_append.mp ha with h | h
          · have hnr := measure_inner_no_report pt reads it idx info a h
            rw [heq] at hnr
            simp [isReport] at hnr
          · exact ih _ _ a h ch txt heq

theorem measure_reader_out (it : Nat) (reads : Nat → ReadEvent)
    (noF : ∀ j, wfailOf (reads j) = false) :
    ∀ (ts : List Tick) (idx : Nat) (info : TransferInfo),
      outBytes (measure_reader it true reads ts idx info).acts
        = readData reads idx ((measure_reader it true reads ts idx info).idx - idx) := by
  intro ts
  induction ts with
  | nil =>
    intro idx info
    rw [measure_reader_nil]
    simp [outBytes, readData]
  | cons t ts ih =>
    intro idx info
    have hle1 := measure_inner_idx_le true reads it idx info
    have hin := measure_inner_out reads noF it idx info
    cases hH : (measure_inner true reads it idx info).halted with
    | true =>
      rw [measure_reader_cons_halt it true reads t ts idx info hH]
      exact hin
    | false =>
      cases hE : (measure_inner true reads it idx info).endLoop with
      | true =>
        cases hP : t.pfail with
        | true =>
          rw [measure_reader_cons_pfail it true reads t ts idx info hH (Or.inr hE) hP]
          dsimp only
          rw [outBytes_append, hin]
          simp [outBytes]
        | false =>
          rw [measure_reader_cons_done it true reads t ts idx info hH hE hP]
          dsimp only
          rw [outBytes_append, hin]
          simp [outBytes]
      | false =>
        by_cases hd : 0 < t.dur.secs
        · cases hP : t.pfail with
          | true =>
            rw [measure_reader_cons_pfail it true reads t ts idx info hH (Or.inl hd) hP]
            dsimp only
            rw [outBytes_append, hin]
            simp [outBytes]
          | false =>
            rw [measure_reader_cons_report it true reads t ts idx info hH hE hd hP]
            dsimp only
            have hle2 := measure_reader_idx_le it true reads ts
              (measure_inner true reads it idx info).idx
              (resetInfo (measuredInfo (measure_inner true reads it idx info).info t.dur))
            have ht2 := ih (measure_inner true reads it idx info).idx
              (resetInfo (measuredInfo (measure_inner true reads it idx info).info t.dur))
            rw [outBytes_append, outBytes_append, hin, ht2]
            have hsingle : outBytes [Action.report
                (if true then Channel.stderr else Channel.stdout)
                (print_info (measuredInfo
                  (measure_inner true reads it idx info).info t.dur))] = [] := rfl
            rw [hsingle, List.append_nil]
            have harg : (measure_reader it true reads ts
                  (measure_inner true reads it idx info).idx
                  (resetInfo (measuredInfo
                    (measure_inner true reads it idx info).info t.dur))).idx - idx
                = ((measure_inner true reads it idx info).idx - idx)
                  + ((measure_reader it true reads ts
                      (measure_inner true reads it idx info).idx
                      (resetInfo (measuredInfo
                        (measure_inner true reads it idx info).info t.dur))).idx
                    - (measure_inner true reads it idx info).idx) := by omega
            rw [harg, readData_add]
            have hidx : idx + ((measure_inner true reads it idx info).idx - idx)
                = (measure_inner true reads it idx info).idx := by omega
            rw [hidx]
        · have hd0 : t.dur.secs = 0 := by omega
          rw [measure_reader_cons_skip it true reads t ts idx info hH hE hd0]
          dsimp only
          have hle2 := measure_reader_idx_le it true reads ts
            (measure_inner true reads it idx info).idx
            (measure_inner true reads it idx info).info
          have ht2 := ih (measure_inner true reads it idx info).idx
            (measure_inner true reads it idx info).info
          rw [outBytes_append, hin, ht2]
          have harg : (measure_reader it true reads ts
                (measure_inner true reads it idx info).idx
                (measure_inner true reads it idx info).info).idx - idx
              = ((measure_inner true reads it idx info).idx - idx)
                + ((measure_reader it true reads ts
                    (measure_inner true reads it idx info).idx
                    (measure_inner true reads it idx info).info).idx
                  - (measure_inner true reads it idx info).idx) := by omega
          rw [harg, readData_add]
          have hidx : idx + ((measure_inner true reads it idx info).idx - idx)
              = (measure_inner true reads it idx info).idx := by omega
          rw [hidx]

theorem measure_reader_done_eof (it : Nat) (pt : Bool) (reads : Nat → ReadEvent) :
    ∀ (ts : List Tick) (idx : Nat) (info : TransferInfo),
      (measure_reader it pt reads ts idx info).status = Status.done →
      (∃ ch txt, ((measure_reader it pt reads ts idx info).acts).getLast?
          = some (Action.report ch txt))
      ∧ ∃ j w, idx ≤ j ∧ j < (measure_reader it pt reads ts idx info).idx
          ∧ reads j = ReadEvent.ok [] w := by
  intro ts
  induction ts with
  | nil =>
    intro idx info h
    rw [measure_reader_nil] at h
    simp at h
  | cons t ts ih =>
    intro idx info h
    have hle1 := measure_inner_idx_le pt reads it idx info
    cases hH : (measure_inner pt reads it idx info).halted with
    | true =>
      rw [measure_reader_cons_halt it pt reads t ts idx info hH] at h
      simp at h
    | false =>
      cases hE : (measure_inner pt reads it idx info).endLoop with
      | true =>
        cases hP : t.pfail with
        | true =>
          rw [measure_reader_cons_pfail it pt reads t ts idx info hH (Or.inr hE) hP] at h
          simp at h
        | false =>
          rw [measure_reader_cons_done it pt reads t ts idx info hH hE hP]
          dsimp only
          constructor
          · exact ⟨_, _, getLast?_append_singleton _ _⟩
          · obtain ⟨j, w, hj1, hj2, hj3⟩ := measure_inner_eof pt reads it idx info hE
            exact ⟨j, w, hj1, hj2, hj3⟩
      | false =>
        by_cases hd : 0 < t.dur.secs
        · cases hP : t.pfail with
          | true =>
            rw [measure_reader_cons_pfail it pt reads t ts idx info hH (Or.inl hd) hP] at h
            simp at h
          | false =>
            rw [measure_reader_cons_report it pt reads t ts idx info hH hE hd hP] at h ⊢
            dsimp only at h ⊢
            obtain ⟨⟨ch, txt, hlast⟩, j, w, hj1, hj2, hj3⟩ := ih _ _ h
            have hle2 := measure_reader_idx_le it pt reads ts
              (measure_inner pt reads it idx info).idx
              (resetInfo (measuredInfo (measure_inner pt reads it idx info).info t.dur))
            constructor
            · exact ⟨ch, txt, getLast?_append_of_getLast? _ _ _ hlast⟩
            · exact ⟨j, w, by omega, hj2, hj3⟩
        · have hd0 : t.dur.secs = 0 := by omega
          rw [measure_reader_cons_skip it pt reads t ts idx info hH hE hd0] at h ⊢
          dsimp only at h ⊢
          obtain ⟨⟨ch, txt, hlast⟩, j, w, hj1, hj2, hj3⟩ := ih _ _ h
          have hle2 := measure_reader_idx_le it pt reads ts
            (measure_inner pt reads it idx info).idx
            (measure_inner pt reads it idx info).info
          constructor
          · exact ⟨ch, txt, getLast?_append_of_getLast? _ _ _ hlast⟩
          · exact ⟨j, w, by omega, hj2, hj3⟩


/-! ### Rendering lemmas for the report layout -/

theorem natDigitsAux_digits :
    ∀ (fuel n : Nat) (c : Char), c ∈ natDigitsAux fuel n →
      ∃ d, d < 10 ∧ c = Char.ofNat (48 + d) := by
  intro fuel
  induction fuel with
  | zero => intro n c hc; simp [natDigitsAux] at hc
  | succ f ih =>
    intro n c hc
    by_cases h : n < 10
    · simp [natDigitsAux, h] at hc
      exact ⟨n, h, hc⟩
    · simp only [natDigitsAux, h, if_false, List.mem_append, List.mem_singleton] at hc
      rcases hc with hc | hc
      · exact ih _ c hc
      · exact ⟨n % 10, Nat.mod_lt _ (by omega), hc⟩

theorem digit_ne_lf (d : Nat) (hd : d < 10) : Char.ofNat (48 + d) ≠ '\n' := by
  interval_cases d <;> decide

theorem noLF_natRepr (n : Nat) : ∀ c ∈ (natRepr n).data, c ≠ '\n' := by
  intro c hc
  obtain ⟨d, hd, rfl⟩ := natDigitsAux_digits (n + 1) n c hc
  exact digit_ne_lf d hd

theorem noLF_append (s t : String)
    (hs : ∀ c ∈ s.data, c ≠ '\n') (ht : ∀ c ∈ t.data, c ≠ '\n') :
    ∀ c ∈ (s ++ t).data, c ≠ '\n' := by
  intro c hc
  rw [String.data_append] at hc
  rcases List.mem_append.mp hc with h | h
  · exact hs c h
  · exact ht c h

theorem noLF_formatFixed3 (q : ℚ) : ∀ c ∈ (formatFixed3 q).data, c ≠ '\n' := by
  intro c hc
  simp only [formatFixed3, String.data_append] at hc
  rcases List.mem_append.mp hc with hc | hc
  · rcases List.mem_append.mp hc with hc | hc
    · obtain ⟨d, hd, rfl⟩ := natDigitsAux_digits _ _ c hc
      exact digit_ne_lf d hd
    · simp at hc
      subst hc
      decide
  · simp only [pad3, List.mem_append] at hc
    rcases hc with hc | hc
    · rw [List.eq_of_mem_replicate hc]
      decide
    · obtain ⟨d, hd, rfl⟩ := natDigitsAux_digits _ _ c hc
      exact digit_ne_lf d hd

theorem noLF_unit (q : ℚ) : ∀ c ∈ (byte_to_mem_units q).2.data, c ≠ '\n' := by
  simp only [byte_to_mem_units]
  split_ifs <;> (dsimp only) <;> decide

theorem noLF_count_zero (s : String) (h : ∀ c ∈ s.data, c ≠ '\n') :
    s.data.count '\n' = 0 := by
  rw [List.count_eq_zero]
  intro hmem
  exact h _ hmem rfl

/-- The value text of the first report line. -/
def dataValue (info : TransferInfo) : String :=
  formatFixed3 (byte_to_mem_units (info.total_bytes_transferred : ℚ)).1
    ++ " " ++ (byte_to_mem_units (info.total_bytes_transferred : ℚ)).2
    ++ " (" ++ natRepr info.total_measures ++ " cycles)"

/-- The value text of the second report line. -/
def speedValue (info : TransferInfo) : String :=
  formatFixed3 (byte_to_mem_units info.last_bps).1
    ++ " " ++ (byte_to_mem_units info.last_bps).2 ++ "/sec"

/-- The value text of the third report line. -/
def avgValue (info : TransferInfo) : String :=
  formatFixed3 (byte_to_mem_units (info.total_bps / (info.total_measures : ℚ))).1
    ++ " " ++ (byte_to_mem_units (info.total_bps / (info.total_measures : ℚ))).2
    ++ "/sec"

theorem noLF_lit (s : String) (h : s.data.count '\n' = 0) :
    ∀ c ∈ s.data, c ≠ '\n' := by
  intro c hc heq
  subst heq
  rw [List.count_eq_zero] at h
  exact h hc

theorem noLF_dataValue (info : TransferInfo) :
    ∀ c ∈ (dataValue info).data, c ≠ '\n' := by
  intro c hc
  simp only [dataValue, String.data_append, List.mem_append] at hc
  rcases hc with ((((hc | hc) | hc) | hc) | hc) | hc
  · exact noLF_formatFixed3 _ c hc
  · exact noLF_lit " " (by decide) c hc
  · exact noLF_unit _ c hc
  · exact noLF_lit " (" (by decide) c hc
  · exact noLF_natRepr _ c hc
  · exact noLF_lit " cycles)" (by decide) c hc

theorem noLF_speedValue (info : TransferInfo) :
    ∀ c ∈ (speedValue info).data, c ≠ '\n' := by
  intro c hc
  simp only [speedValue, String.data_append, List.mem_append] at hc
  rcases hc with ((hc | hc) | hc) | hc
  · exact noLF_formatFixed3 _ c hc
  · exact noLF_lit " " (by decide) c hc
  · exact noLF_unit _ c hc
  · exact noLF_lit "/sec" (by decide) c hc

theorem noLF_avgValue (info : TransferInfo) :
    ∀ c ∈ (avgValue info).data, c ≠ '\n' := by
  intro c hc
  simp only [avgValue, String.data_append, List.mem_append] at hc
  rcases hc with ((hc | hc) | hc) | hc
  · exact noLF_formatFixed3 _ c hc
  · exact noLF_lit " " (by decide) c hc
  · exact noLF_unit _ c hc
  · exact noLF_lit "/sec" (by decide) c hc

theorem print_info_eq (info : TransferInfo) :
    print_info info =
      (if 1 < info.total_measures then term_move_up 3 else "")
      ++ (print_fixed_width "Data Transferred:" 24 ++ dataValue info ++ term_clear_line)
      ++ (print_fixed_width "Transfer Speed:" 24 ++ speedValue info ++ term_clear_line)
      ++ (print_fixed_width "Average Transfer Speed:" 24 ++ avgValue info
          ++ term_clear_line) := rfl

theorem count_lf_print_info (info : TransferInfo) :
    (print_info info).data.count '\n' = 3 := by
  rw [print_info_eq]
  simp only [String.data_append, List.count_append]
  have h1 : (dataValue info).data.count '\n' = 0 :=
    noLF_count_zero _ (noLF_dataValue info)
  have h2 : (speedValue info).data.count '\n' = 0 :=
    noLF_count_zero _ (noLF_speedValue info)
  have h3 : (avgValue info).data.count '\n' = 0 :=
    noLF_count_zero _ (noLF_avgValue info)
  have h4 : (term_clear_line).data.count '\n' = 1 := by decide
  have h5 : (term_move_up 3).data.count '\n' = 0 := by decide
  have h6 : ((if 1 < info.total_measures then term_move_up 3 else "")).data.count '\n'
      = 0 := by
    by_cases hm : 1 < info.total_measures
    · rw [if_pos hm]; exact h5
    · rw [if_neg hm]; decide
  have h7 : (print_fixed_width "Data Transferred:" 24).data.count '\n' = 0 := by decide
  have h8 : (print_fixed_width "Transfer Speed:" 24).data.count '\n' = 0 := by decide
  have h9 : (print_fixed_width "Average Transfer Speed:" 24).data.count '\n' = 0 := by
    decide
  omega


/-! ### Claim theorems -/

/-- C1: for every sequence of reads performed by `measure_reader` totaling `B`
bytes (only bytes returned by successful reads count; failed reads contribute
nothing, since `okBytes` of a failed read is 0), the accumulator field
`total_bytes_transferred` equals its initial value plus `B` when the loop
ends, and it is monotonically non-decreasing across every outer iteration and
every inner read stage. -/
theorem total_bytes_invariant (it : Nat) (pt : Bool) (reads : Nat → ReadEvent)
    (ts : List Tick) (idx : Nat) (info : TransferInfo) :
    ((measure_reader it pt reads ts idx info).info.total_bytes_transferred
      = info.total_bytes_transferred
        + readSum reads idx ((measure_reader it pt reads ts idx info).idx - idx))
    ∧ info.total_bytes_transferred
        ≤ (measure_reader it pt reads ts idx info).info.total_bytes_transferred
    ∧ info.total_bytes_transferred
        ≤ (measure_inner pt reads it idx info).info.total_bytes_transferred := by
  refine ⟨measure_reader_total it pt reads ts idx info, ?_, ?_⟩
  · have h := measure_reader_total it pt reads ts idx info
    omega
  · have h := measure_inner_total pt reads it idx info
    omega

/-- C2: a zero-byte read (end of stream) makes the loop emit exactly one
final report — even when the tick's duration is sub-second — and return with
status `done`; conversely a `done` status only arises when an empty read was
consumed and the last emitted action is a report. -/
theorem eof_terminates (it : Nat) (pt : Bool) (reads : Nat → ReadEvent)
    (t : Tick) (ts : List Tick) (idx : Nat) (info : TransferInfo)
    (hH : (measure_inner pt reads it idx info).halted = false)
    (hP : t.pfail = false) :
    ((measure_inner pt reads it idx info).endLoop = true →
      (measure_reader it pt reads (t :: ts) idx info).status = Status.done
      ∧ (measure_reader it pt reads (t :: ts) idx info).acts
          = (measure_inner pt reads it idx info).acts
            ++ [Action.report (if pt then Channel.stderr else Channel.stdout)
                (print_info (measuredInfo (measure_inner pt reads it idx info).info
                  t.dur))]
      ∧ reportCount (measure_reader it pt reads (t :: ts) idx info).acts = 1)
    ∧ (∀ (ts2 : List Tick) (idx2 : Nat) (info2 : TransferInfo),
        (measure_reader it pt reads ts2 idx2 info2).status = Status.done →
        (∃ ch txt, ((measure_reader it pt reads ts2 idx2 info2).acts).getLast?
            = some (Action.report ch txt))
        ∧ ∃ j w, idx2 ≤ j ∧ j < (measure_reader it pt reads ts2 idx2 info2).idx
            ∧ reads j = ReadEvent.ok [] w) := by
  constructor
  · intro hE
    rw [measure_reader_cons_done it pt reads t ts idx info hH hE hP]
    dsimp only
    refine ⟨rfl, rfl, ?_⟩
    rw [reportCount_append,
      reportCount_eq_zero _ (fun x hx => measure_inner_no_report pt reads it idx info x hx)]
    rfl
  · intro ts2 idx2 info2 h
    exact measure_reader_done_eof it pt reads ts2 idx2 info2 h

theorem eof_terminates_witness :
    (measure_reader 1 false (fun _ => ReadEvent.ok [] false)
        [⟨⟨0, 0⟩, false⟩] 0 initInfo).status = Status.done :=
  ((eof_terminates 1 false (fun _ => ReadEvent.ok [] false) ⟨⟨0, 0⟩, false⟩ [] 0 initInfo
      rfl rfl).1 rfl).1

/-- C3: `byte_to_mem_units` selects TB, GB, MB, KB, Bytes by descending
threshold (KB = 1024, MB = KB·1024, GB = MB·1024, TB = GB·1024), dividing by
the selected threshold; in particular 1023 stays Bytes, 1024 is 1 KB, 1536 is
1.5 KB and 3·1024·1024 is 3 MB. -/
theorem byte_to_mem_units_spec (b : ℚ) (hb : 0 ≤ b) :
    ((b ≥ 1024 * 1024 * 1024 * 1024 →
        byte_to_mem_units b = (b / (1024 * 1024 * 1024 * 1024), "TB"))
     ∧ (b < 1024 * 1024 * 1024 * 1024 → b ≥ 1024 * 1024 * 1024 →
        byte_to_mem_units b = (b / (1024 * 1024 * 1024), "GB"))
     ∧ (b < 1024 * 1024 * 1024 → b ≥ 1024 * 1024 →
        byte_to_mem_units b = (b / (1024 * 1024), "MB"))
     ∧ (b < 1024 * 1024 → b ≥ 1024 →
        byte_to_mem_units b = (b / 1024, "KB"))
     ∧ (b < 1024 → byte_to_mem_units b = (b, "Bytes")))
    ∧ byte_to_mem_units 1023 = (1023, "Bytes")
    ∧ byte_to_mem_units 1024 = (1, "KB")
    ∧ byte_to_mem_units 1536 = (3 / 2, "KB")
    ∧ byte_to_mem_units (1024 * 1024 * 3) = (3, "MB") := by
  refine ⟨⟨?_, ?_, ?_, ?_, ?_⟩, ?_, ?_, ?_, ?_⟩
  · intro h
    simp only [byte_to_mem_units]
    split_ifs <;> first | rfl | (exfalso; linarith)
  · intro h1 h2
    simp only [byte_to_mem_units]
    split_ifs <;> first | rfl | (exfalso; linarith)
  · intro h1 h2
    simp only [byte_to_mem_units]
    split_ifs <;> first | rfl | (exfalso; linarith)
  · intro h1 h2
    simp only [byte_to_mem_units]
    split_ifs <;> first | rfl | (exfalso; linarith)
  · intro h1
    simp only [byte_to_mem_units]
    split_ifs <;> first | rfl | (exfalso; linarith)
  · norm_num [byte_to_mem_units]
  · norm_num [byte_to_mem_units]
  · norm_num [byte_to_mem_units]
  · norm_num [byte_to_mem_units]

theorem byte_to_mem_units_spec_witness :
    (0 : ℚ) ≤ 1024 ∧ byte_to_mem_units 1024 = (1, "KB") :=
  ⟨by norm_num, (byte_to_mem_units_spec 1024 (by norm_num)).2.2.1⟩

/-- C4: starting from an accumulator whose `total_bps` is the sum and whose
`total_measures` is the count of the previously recorded rates `l`, after a
run the accumulator's `total_bps` is the sum and `total_measures` the count
of `l` extended by the run's recorded `last_bps` values, so
`total_bps / total_measures` is exactly the arithmetic (unweighted) mean of
all recorded per-interval rates. -/
theorem average_is_mean (it : Nat) (pt : Bool) (reads : Nat → ReadEvent)
    (ts : List Tick) (idx : Nat) (info : TransferInfo) (l : List ℚ)
    (hb : info.total_bps = l.sum) (hm : info.total_measures = l.length) :
    (measure_reader it pt reads ts idx info).info.total_bps
        = (l ++ (measure_reader it pt reads ts idx info).rates).sum
    ∧ (measure_reader it pt reads ts idx info).info.total_measures
        = (l ++ (measure_reader it pt reads ts idx info).rates).length
    ∧ (0 < (measure_reader it pt reads ts idx info).info.total_measures →
        (measure_reader it pt reads ts idx info).info.total_bps
            / ((measure_reader it pt reads ts idx info).info.total_measures : ℚ)
          = (l ++ (measure_reader it pt reads ts idx info).rates).sum
            / (((l ++ (measure_reader it pt reads ts idx info).rates).length : Nat) : ℚ)) := by
  obtain ⟨h1, h2⟩ := measure_reader_rates it pt reads ts idx info
  refine ⟨?_, ?_, ?_⟩
  · rw [h1, hb, List.sum_append]
  · rw [h2, hm, List.length_append]
  · intro hpos
    rw [h1, h2, hb, hm, List.sum_append, List.length_append]

theorem average_is_mean_witness :
    (measure_reader 1 false (fun _ => ReadEvent.ok [] false)
        [⟨⟨1, 0⟩, false⟩] 0 initInfo).info.total_bps
      = (([] : List ℚ)
          ++ (measure_reader 1 false (fun _ => ReadEvent.ok [] false)
              [⟨⟨1, 0⟩, false⟩] 0 initInfo).rates).sum :=
  (average_is_mean 1 false (fun _ => ReadEvent.ok [] false) [⟨⟨1, 0⟩, false⟩] 0 initInfo
    [] rfl rfl).1

/-- C5: a failed read reports one line to the error channel, does not set the
end-of-stream flag, does not halt, and hands the accumulator to the next
iteration completely unchanged; it also contributes zero bytes. -/
theorem read_error_recovery (pt : Bool) (reads : Nat → ReadEvent)
    (i idx : Nat) (info : TransferInfo)
    (hev : reads idx = ReadEvent.rerr) :
    (measure_inner pt reads (i + 1) idx info).acts
        = Action.errMsg "Error while reading into buffer"
            :: (measure_inner pt reads i (idx + 1) info).acts
    ∧ (measure_inner pt reads (i + 1) idx info).info
        = (measure_inner pt reads i (idx + 1) info).info
    ∧ (measure_inner pt reads (i + 1) idx info).endLoop
        = (measure_inner pt reads i (idx + 1) info).endLoop
    ∧ (measure_inner pt reads (i + 1) idx info).halted
        = (measure_inner pt reads i (idx + 1) info).halted
    ∧ okBytes (reads idx) = 0 := by
  rw [measure_inner_succ_rerr pt reads i idx info hev]
  exact ⟨rfl, rfl, rfl, rfl, by rw [hev]; rfl⟩

theorem read_error_recovery_witness :
    (measure_inner false (fun _ => ReadEvent.rerr) (0 + 1) 0 initInfo).acts
      = Action.errMsg "Error while reading into buffer"
          :: (measure_inner false (fun _ => ReadEvent.rerr) 0 (0 + 1) initInfo).acts :=
  (read_error_recovery false (fun _ => ReadEvent.rerr) 0 0 initInfo rfl).1

/-- C6: a failing passthrough write halts the inner stage at once with an
error line and an exit, and the surrounding loop returns `halted` with no
further actions regardless of the remaining ticks; a failing report write
likewise halts the loop at once after the error line and the exit. -/
theorem write_failure_fatal (reads : Nat → ReadEvent) (i it idx : Nat)
    (info : TransferInfo) (data : List Nat) (pt : Bool) (t : Tick) (ts : List Tick)
    (hev : reads idx = ReadEvent.ok data true) (hd : data ≠ [])
    (hH : (measure_inner pt reads it idx info).halted = false)
    (hF : 0 < t.dur.secs ∨ (measure_inner pt reads it idx info).endLoop = true)
    (hP : t.pfail = true) :
    (measure_inner true reads (i + 1) idx info
        = ⟨addBytes info data.length, idx + 1,
            [.errMsg "Error while writing buffer into stdout", .exit], false, true⟩)
    ∧ (measure_reader (i + 1) true reads (t :: ts) idx info
        = ⟨.halted, addBytes info data.length, idx + 1,
            [.errMsg "Error while writing buffer into stdout", .exit], []⟩)
    ∧ (measure_reader it pt reads (t :: ts) idx info
        = ⟨.halted, measuredInfo (measure_inner pt reads it idx info).info t.dur,
            (measure_inner pt reads it idx info).idx,
            (measure_inner pt reads it idx info).acts
              ++ [.errMsg "Error while printing output", .exit],
            [(measuredInfo (measure_inner pt reads it idx info).info t.dur).last_bps]⟩) := by
  have hz : data.length ≠ 0 := fun h => hd (List.length_eq_zero.mp h)
  have c1 := measure_inner_succ_halt true reads i idx info data true hev hz rfl rfl
  refine ⟨c1, ?_, measure_reader_cons_pfail it pt reads t ts idx info hH hF hP⟩
  rw [measure_reader_cons_halt (i + 1) true reads t ts idx info (by rw [c1])]
  rw [c1]

theorem write_failure_fatal_witness :
    measure_reader (0 + 1) true (fun _ => ReadEvent.ok [1] true)
        [⟨⟨1, 0⟩, true⟩] 0 initInfo
      = ⟨.halted, addBytes initInfo [1].length, 0 + 1,
          [.errMsg "Error while writing buffer into stdout", .exit], []⟩ :=
  (write_failure_fatal (fun _ => ReadEvent.ok [1] true) 0 0 0 initInfo [1] false
      ⟨⟨1, 0⟩, true⟩ [] rfl (by simp) rfl (Or.inl Nat.one_pos) rfl).2.1

/-- C7: every report action a run emits goes to standard error when
passthrough is enabled and to standard output otherwise; and with passthrough
enabled (and no write failures) the bytes written to standard output are
exactly the bytes returned by the consumed successful reads, in order. -/
theorem passthrough_exact (it : Nat) (pt : Bool) (reads : Nat → ReadEvent)
    (ts : List Tick) (idx : Nat) (info : TransferInfo)
    (noF : ∀ j, wfailOf (reads j) = false) :
    (∀ a ∈ (measure_reader it pt reads ts idx info).acts,
        ∀ ch txt, a = Action.report ch txt →
          ch = (if pt then Channel.stderr else Channel.stdout))
    ∧ (pt = true →
        outBytes (measure_reader it pt reads ts idx info).acts
          = readData reads idx ((measure_reader it pt reads ts idx info).idx - idx)) := by
  constructor
  · intro a ha ch txt heq
    exact measure_reader_chan it pt reads ts idx info a ha ch txt heq
  · intro hpt
    subst hpt
    exact measure_reader_out it reads noF ts idx info

theorem passthrough_exact_witness :
    outBytes (measure_reader 1 true (fun _ => ReadEvent.ok [] false)
        [⟨⟨0, 0⟩, false⟩] 0 initInfo).acts
      = readData (fun _ => ReadEvent.ok [] false) 0
          ((measure_reader 1 true (fun _ => ReadEvent.ok [] false)
              [⟨⟨0, 0⟩, false⟩] 0 initInfo).idx - 0) :=
  (passthrough_exact 1 true (fun _ => ReadEvent.ok [] false) [⟨⟨0, 0⟩, false⟩] 0 initInfo
    (fun _ => rfl)).2 rfl

/-- C8: a rendered report starts with a cursor-up-3-lines hint exactly when it
is not the first report (`total_measures > 1`), and then consists of exactly
three newline-terminated lines, each beginning with its label left-justified
and space-padded to column 24 and ending with the clear-to-end-of-line hint
before the newline (the value texts contain no newline, and the whole report
contains exactly three newlines). -/
theorem print_info_layout (info : TransferInfo) :
    ∃ v1 v2 v3 : String,
      print_info info =
        (if 1 < info.total_measures then term_move_up 3 else "")
        ++ (print_fixed_width "Data Transferred:" 24 ++ v1 ++ term_clear_line)
        ++ (print_fixed_width "Transfer Speed:" 24 ++ v2 ++ term_clear_line)
        ++ (print_fixed_width "Average Transfer Speed:" 24 ++ v3 ++ term_clear_line)
      ∧ term_move_up 3 = "\u001B[3A"
      ∧ term_clear_line = "\u001B[K\n"
      ∧ print_fixed_width "Data Transferred:" 24
          = "Data Transferred:" ++ String.mk (List.replicate 7 ' ')
      ∧ (print_fixed_width "Data Transferred:" 24).length = 24
      ∧ print_fixed_width "Transfer Speed:" 24
          = "Transfer Speed:" ++ String.mk (List.replicate 9 ' ')
      ∧ (print_fixed_width "Transfer Speed:" 24).length = 24
      ∧ print_fixed_width "Average Transfer Speed:" 24
          = "Average Transfer Speed:" ++ String.mk (List.replicate 1 ' ')
      ∧ (print_fixed_width "Average Transfer Speed:" 24).length = 24
      ∧ (∀ c ∈ v1.data, c ≠ '\n')
      ∧ (∀ c ∈ v2.data, c ≠ '\n')
      ∧ (∀ c ∈ v3.data, c ≠ '\n')
      ∧ (print_info info).data.count '\n' = 3 :=
  ⟨dataValue info, speedValue info, avgValue info,
    print_info_eq info, rfl, rfl, rfl, rfl, rfl, rfl, rfl, rfl,
    noLF_dataValue info, noLF_speedValue info, noLF_avgValue info,
    count_lf_print_info info⟩

/-- C9 counterexample: with only the port argument present (exactly one of
address/port), `main` does not report a configuration error; it proceeds to
TCP mode with the default address, so the claim as stated is false. -/
theorem port_without_address_runs :
    isConfigError (mainConfig ⟨false, none, none, none, some "8080"⟩) = false
    ∧ mainConfig ⟨false, none, none, none, some "8080"⟩
        = MainOutcome.runTcp "127.0.0.1" 8080 4096 1 false
    ∧ (⟨false, none, none, none, some "8080"⟩ : ArgMatches).address.isSome = false
    ∧ (⟨false, none, none, none, some "8080"⟩ : ArgMatches).port.isSome = true
    ∧ exitCode (mainConfig ⟨false, none, none, none, some "8080"⟩) = none :=
  ⟨rfl, rfl, rfl, rfl, rfl⟩

/-- C9 (amended): if the address argument is present and the port argument is
absent (and the numeric arguments checked earlier parse), `main` reports a
configuration error to standard error and exits with status 1 before the
Sampler runs; a port without an address is instead accepted, with the address
defaulting to 127.0.0.1. -/
theorem address_without_port_config_error (m : ArgMatches)
    (hbuf : ∀ s, m.buffer_size = some s → (parseUsize s).isSome = true)
    (hit : ∀ s, m.iterations = some s → (parseUsize s).isSome = true)
    (ha : m.address.isSome = true) (hp : m.port.isSome = false) :
    mainConfig m
      = MainOutcome.configError "A port must be speicified alongside a address."
    ∧ exitCode (mainConfig m) = some 1 := by
  have hport : m.port = none := by
    cases hpo : m.port with
    | none => rfl
    | some p => rw [hpo] at hp; simp at hp
  rcases Option.isSome_iff_exists.mp ha with ⟨addr, haddr⟩
  have hmain : mainConfig m
      = MainOutcome.configError "A port must be speicified alongside a address." := by
    cases hbs : m.buffer_size with
    | none =>
      cases his : m.iterations with
      | none => simp [mainConfig, hbs, his, haddr, hport]
      | some s2 =>
        rcases Option.isSome_iff_exists.mp (hit s2 his) with ⟨itv, hitv⟩
        simp [mainConfig, hbs, his, hitv, haddr, hport]
    | some s =>
      rcases Option.isSome_iff_exists.mp (hbuf s hbs) with ⟨bv, hbv⟩
      cases his : m.iterations with
      | none => simp [mainConfig, hbs, hbv, his, haddr, hport]
      | some s2 =>
        rcases Option.isSome_iff_exists.mp (hit s2 his) with ⟨itv, hitv⟩
        simp [mainConfig, hbs, hbv, his, hitv, haddr, hport]
  exact ⟨hmain, by rw [hmain]; rfl⟩

theorem address_without_port_config_error_witness :
    mainConfig ⟨false, none, none, some "1.2.3.4", none⟩
      = MainOutcome.configError "A port must be speicified alongside a address." :=
  (address_without_port_config_error ⟨false, none, none, some "1.2.3.4", none⟩
    (fun _ h => Option.noConfusion h) (fun _ h => Option.noConfusion h) rfl rfl).1

/-- C10: the iterations argument parses "0" without error (no validation of
the iterations ≥ 1 precondition), and with iterations = 0 the inner stage
performs no reads (index unchanged, end-of-stream flag never set), so the
loop never returns with status `done`, whatever the environment does. -/
theorem iterations_zero_never_done :
    parseUsize "0" = some 0
    ∧ mainConfig ⟨false, none, some "0", none, none⟩ = MainOutcome.runStdin 4096 0 false
    ∧ (∀ (pt : Bool) (reads : Nat → ReadEvent) (idx : Nat) (info : TransferInfo),
        measure_inner pt reads 0 idx info = ⟨info, idx, [], false, false⟩)
    ∧ (∀ (pt : Bool) (reads : Nat → ReadEvent) (ts : List Tick) (idx : Nat)
        (info : TransferInfo),
        statusIsDone (measure_reader 0 pt reads ts idx info).status = false) := by
  refine ⟨rfl, rfl, fun pt reads idx info => rfl, ?_⟩
  intro pt reads ts
  induction ts with
  | nil => intro idx info; rfl
  | cons t ts ih =>
    intro idx info
    have hH : (measure_inner pt reads 0 idx info).halted = false := rfl
    have hE : (measure_inner pt reads 0 idx info).endLoop = false := rfl
    cases hP : t.pfail with
    | true =>
      by_cases hd : 0 < t.dur.secs
      · rw [measure_reader_cons_pfail 0 pt reads t ts idx info hH (Or.inl hd) hP]
        rfl
      · have hd0 : t.dur.secs = 0 := by omega
        rw [measure_reader_cons_skip 0 pt reads t ts idx info hH hE hd0]
        exact ih _ _
    | false =>
      by_cases hd : 0 < t.dur.secs
      · rw [measure_reader_cons_report 0 pt reads t ts idx info hH hE hd hP]
        exact ih _ _
      · have hd0 : t.dur.secs = 0 := by omega
        rw [measure_reader_cons_skip 0 pt reads t ts idx info hH hE hd0]
        exact ih _ _

end Throughput
